import Mathlib

/-!
Verification of the real-time session-coordination engine (backend/src/socket.rs,
backend/src/handlers.rs, backend/src/models.rs) against its specification.

Modelling conventions (shallow embedding):
* `Uuid` is modelled as `Nat`.
* Rust `i32` values are modelled as `Int`; parse-time range checks of
  `str::parse::<i32>` are modelled explicitly (bounds `2^31`), and the i32
  accumulation of the dice total is wrapped into the i32 range by `wrap32`
  (release-build two's-complement overflow; debug builds panic at exactly
  the points where `wrap32` changes the value).
* `rand::random::<u32>()` is modelled as an arbitrary stream `rng : Nat → Nat`
  whose values are reduced `% 2^32` (the u32 type).
* The database row holding the session's `game_state` JSON blob is modelled as
  `Option GameState`: `none` stands for a blob that fails to parse, in which
  case the code substitutes a default state (`unwrap_or_else`).
* Timestamps (`updated_at`, `created_at`, `applied_at`) are not modelled; a
  DB write is modelled by the game-state content written back.
* The DM authorization predicate computed by SQL is passed in as a `Bool`.
* Handlers return `(written blob, broadcast-call payloads, reply to sender)`.
-/

/-! ## Dice engine (socket.rs: `roll_dice`) -/

/-- Numeric value of a decimal digit character (`c as u32 - '0' as u32`). -/
def charVal (c : Char) : Nat := c.toNat - 48

/-- Accumulator loop of decimal parsing: consumes the characters left to
right, failing on any non-digit, exactly as `str::parse` does on the digit
portion. -/
def parseNatAux : Nat → List Char → Option Nat
  | acc, [] => some acc
  | acc, c :: cs => if c.isDigit then parseNatAux (acc * 10 + charVal c) cs else none

/-- Parse a non-empty all-digit string to a natural number; the empty string
fails (as `"".parse::<i32>()` does). -/
def parseNatDigits : List Char → Option Nat
  | [] => none
  | c :: cs => parseNatAux 0 (c :: cs)

/-- Model of Rust `str::parse::<i32>`: optional leading sign, then one or
more decimal digits, with the i32 range check (failures, including overflow,
give `none`). -/
def parseI32L (cs : List Char) : Option Int :=
  match cs with
  | [] => none
  | c :: rest =>
    if c = '-' then
      match parseNatDigits rest with
      | some n => if n ≤ 2 ^ 31 then some (-(n : Int)) else none
      | none => none
    else if c = '+' then
      match parseNatDigits rest with
      | some n => if n ≤ 2 ^ 31 - 1 then some (n : Int) else none
      | none => none
    else
      match parseNatDigits (c :: rest) with
      | some n => if n ≤ 2 ^ 31 - 1 then some (n : Int) else none
      | none => none

/-- Model of Rust `str::split(sep)` for a one-character separator: always
returns at least one (possibly empty) field. -/
def splitOnChar (sep : Char) : List Char → List (List Char)
  | [] => [[]]
  | c :: cs =>
    if c = sep then [] :: splitOnChar sep cs
    else
      match splitOnChar sep cs with
      | [] => [[c]]
      | p :: ps => (c :: p) :: ps

/-- Result of `roll_dice` (struct `DiceRoll` in socket.rs). -/
structure DiceRoll where
  total : Int
  rolls : List Int
deriving DecidableEq, Repr

/-- One die draw: `(rand::random::<u32>() % sides as u32 + 1) as i32`.  The
`% 2 ^ 32` reduction models the `u32` type of the random source. -/
def rollValue (sides : Nat) (r : Nat) : Int := ((r % 2 ^ 32) % sides + 1 : Nat)

/-- Two's-complement reduction of an unbounded integer into the i32 range
`[-2^31, 2^31 - 1]`.  This models the overflow of Rust `i32` addition as it
behaves in release builds; debug builds panic at exactly the inputs where
`wrap32 x` differs from `x`. -/
def wrap32 (x : Int) : Int := (x + 2 ^ 31) % 2 ^ 32 - 2 ^ 31

/-- Model of `roll_dice` (socket.rs lines 752-786).  `rng i` is the value
returned by the i-th call to `rand::random::<u32>()`.  Mirrors the source:
split on `+` (a failed or absent modifier parse silently becomes 0 via
`unwrap_or(0)`), split the first field on `d` into exactly two parts, parse
both as i32, require both positive, then draw `count` values in
`[1, sides]` and accumulate them plus the modifier in the i32-typed `total`
(`total += roll` in a loop, then `total += modifier`), each addition
wrapping through `wrap32`. -/
def roll_dice (dice : String) (rng : Nat → Nat) : Except String DiceRoll :=
  let parts := splitOnChar '+' dice.data
  let modifier : Int :=
    match parts with
    | _ :: m :: _ => (parseI32L m).getD 0
    | _ => 0
  match splitOnChar 'd' parts.headI with
  | [cstr, sstr] =>
    match parseI32L cstr, parseI32L sstr with
    | some count, some sides =>
      if count ≤ 0 ∨ sides ≤ 0 then .error "Dice count and sides must be positive"
      else
        let rolls := (List.range count.toNat).map fun i => rollValue sides.toNat (rng i)
        .ok { total := wrap32 (rolls.foldl (fun acc r => wrap32 (acc + r)) 0 + modifier)
              rolls := rolls }
    | none, _ => .error "Invalid dice count"
    | some _, none => .error "Invalid dice sides"
  | _ => .error "Invalid dice format. Use format like '2d6+3'"

/-! Decimal printing, used to build the expression `"{count}d{sides}+{modifier}"`
of claim C1.  Fuel-based so that it reduces in the kernel. -/

/-- Little-endian digit characters of `n`; `fuel` bounds the recursion depth
and is irrelevant as soon as `n < fuel`. -/
def natToRevDigitsAux : Nat → Nat → List Char
  | 0, _ => []
  | fuel + 1, n =>
    if n < 10 then [Char.ofNat (48 + n)]
    else Char.ofNat (48 + n % 10) :: natToRevDigitsAux fuel (n / 10)

/-- Decimal digit characters of `n`, most significant first. -/
def natDigitsL (n : Nat) : List Char := (natToRevDigitsAux (n + 1) n).reverse

/-- Decimal rendering of an integer (Rust `Display` for i32). -/
def intDigitsL (m : Int) : List Char :=
  if m < 0 then '-' :: natDigitsL m.natAbs else natDigitsL m.natAbs

/-- The dice expression string `"{count}d{sides}+{modifier}"`. -/
def mkDiceExpr (count sides : Nat) (modifier : Int) : String :=
  ⟨natDigitsL count ++ 'd' :: (natDigitsL sides ++ '+' :: intDigitsL modifier)⟩

/-! ## Game state (models.rs: `GameState`, `InitiativeEntry`, `Condition`) -/

/-- models.rs `InitiativeEntry`. -/
structure InitiativeEntry where
  id : Nat
  name : String
  initiative : Int
  is_player : Bool
  character_id : Option Nat
  user_id : Option Nat
  hp_current : Option Int
  hp_max : Option Int
  ac : Option Int
deriving DecidableEq, Repr

/-- models.rs `Condition` (`applied_at` timestamp modelled as a `Nat`). -/
structure Condition where
  target_id : Nat
  condition_type : String
  duration : Option Int
  description : String
  applied_at : Nat
deriving DecidableEq, Repr

/-- models.rs `GameState`. -/
structure GameState where
  initiative_order : List InitiativeEntry
  current_turn : Option Nat
  round : Int
  combat_active : Bool
  conditions : List Condition
deriving DecidableEq, Repr

/-- The default state substituted by `unwrap_or_else` when the stored JSON
blob fails to parse (socket.rs lines 380-386 and 444-450). -/
def defaultGameState : GameState :=
  { initiative_order := [], current_turn := none, round := 1
    combat_active := false, conditions := [] }

/-- Model of `Iterator::position`: index of the first element satisfying the
predicate. -/
def position {α : Type} (p : α → Bool) : List α → Option Nat
  | [] => none
  | a :: as => if p a then some 0 else (position p as).map (· + 1)

/-- The turn-advancement block of the NextTurn handler (socket.rs lines
452-465): if the order is non-empty, find the index of the entry whose id is
`current_turn` (`unwrap_or(0)` when absent or unset), move to
`(index + 1) % length`, and increment `round` exactly when the new index
is 0.  An empty order leaves the state untouched. -/
def advanceTurn (gs : GameState) : GameState :=
  if h : gs.initiative_order.length = 0 then gs
  else
    let currentIndex :=
      (position (fun e => some e.id == gs.current_turn) gs.initiative_order).getD 0
    let nextIndex := (currentIndex + 1) % gs.initiative_order.length
    { gs with
      current_turn :=
        some (gs.initiative_order.get ⟨nextIndex, Nat.mod_lt _ (Nat.pos_of_ne_zero h)⟩).id
      round := if nextIndex = 0 then gs.round + 1 else gs.round }

/-- Outbound `ServerMessage::TurnChanged` payload. -/
structure TurnChangedMsg where
  session_id : Nat
  current_turn : Nat
  round : Int
deriving DecidableEq, Repr

/-- Outbound `ServerMessage::InitiativeUpdated` payload. -/
structure InitiativeUpdatedMsg where
  session_id : Nat
  initiative_order : List InitiativeEntry
  current_turn : Option Nat
deriving DecidableEq, Repr

/-- The `ClientMessage::NextTurn` arm (socket.rs lines 416-494) after the
session row has been fetched.  `isDm` is the SQL DM predicate, `blob` the
stored game-state JSON (`none` = unparseable).  Returns the blob written
back, the payloads passed to `broadcast_to_session`, and the reply sent to
the caller.  Note the write-back happens before the `current_turn` check, so
the error path also rewrites the blob. -/
def nextTurnHandler (isDm : Bool) (blob : Option GameState) (sid : Nat) :
    Option GameState × List TurnChangedMsg × Except String TurnChangedMsg :=
  if isDm = false then (blob, [], .error "Only the DM can advance turns")
  else
    let gs := blob.getD defaultGameState
    let gs2 := advanceTurn gs
    match gs2.current_turn with
    | some t => (some gs2, [⟨sid, t, gs2.round⟩], .ok ⟨sid, t, gs2.round⟩)
    | none => (some gs2, [], .error "No initiative order set")

/-- The state mutation of the `ClientMessage::UpdateInitiative` arm
(socket.rs lines 388-391): replace the order, force `combat_active`, keep
`current_turn` and `round` as they were. -/
def applyInitiativeUpdate (gs : GameState) (order : List InitiativeEntry) : GameState :=
  { gs with initiative_order := order, combat_active := true }

/-- The `ClientMessage::UpdateInitiative` arm (socket.rs lines 352-414)
after the session row has been fetched; same conventions as
`nextTurnHandler`. -/
def updateInitiativeHandler (isDm : Bool) (blob : Option GameState) (sid : Nat)
    (order : List InitiativeEntry) :
    Option GameState × List InitiativeUpdatedMsg × Except String InitiativeUpdatedMsg :=
  if isDm = false then (blob, [], .error "Only the DM can update initiative")
  else
    let gs := blob.getD defaultGameState
    let gs2 := applyInitiativeUpdate gs order
    (some gs2, [⟨sid, order, gs2.current_turn⟩], .ok ⟨sid, order, gs2.current_turn⟩)

/-- handlers.rs `UpdateInitiativeRequest` (lines 969-976). -/
structure UpdateInitiativeRequest where
  session_id : Nat
  initiative_order : List InitiativeEntry
  current_turn : Option Nat
  round : Option Int
  combat_active : Option Bool
deriving DecidableEq, Repr

/-- The HTTP handler `update_initiative` (handlers.rs lines 978-1046): the
DM check, then replace the order, overwrite `current_turn` with the payload
value, and overwrite `round` / `combat_active` only when supplied. -/
def update_initiative (isDm : Bool) (blob : Option GameState)
    (req : UpdateInitiativeRequest) : Option GameState × Except String Unit :=
  if isDm = false then (blob, .error "Only the DM can update initiative")
  else
    let gs := blob.getD defaultGameState
    let gs2 := { gs with
      initiative_order := req.initiative_order
      current_turn := req.current_turn
      round := req.round.getD gs.round
      combat_active := req.combat_active.getD gs.combat_active }
    (some gs2, .ok ())

/-- The data-model invariant of spec section 3: a set `current_turn` names
some entry of `initiative_order`. -/
def turnInvariant (gs : GameState) : Bool :=
  match gs.current_turn with
  | none => true
  | some t => gs.initiative_order.any fun e => e.id == t

/-! ## Connection registry / session hub (socket.rs lines 16-33, 652-744) -/

/-- socket.rs `ConnectionInfo`. -/
structure ConnectionInfo where
  user_id : Nat
  username : String
  is_dm : Bool
deriving DecidableEq, Repr

/-- socket.rs `SessionInfo`; the `RwLock<HashMap<..>>` of connections is
modelled as an association list keyed by user id. -/
structure SessionInfo where
  session_id : Nat
  campaign_id : Nat
  connections : List (Nat × ConnectionInfo)
deriving DecidableEq, Repr

/-- socket.rs `PlayerInfo`. -/
structure PlayerInfo where
  user_id : Nat
  username : String
  is_dm : Bool
deriving DecidableEq, Repr

/-- `HashMap` lookup on the association-list model. -/
def alookup {β : Type} : List (Nat × β) → Nat → Option β
  | [], _ => none
  | (k, v) :: rest, key => if k = key then some v else alookup rest key

/-- `HashMap::insert`: replace the binding if the key is present, otherwise
add a new one. -/
def ainsert {β : Type} : List (Nat × β) → Nat → β → List (Nat × β)
  | [], key, v => [(key, v)]
  | (k, w) :: rest, key, v =>
    if k = key then (k, v) :: rest else (k, w) :: ainsert rest key v

/-- `join_session` (socket.rs lines 652-686).  `db sid` is the campaign id
of the session row fetched from the database (`none` = fetch failed or no
row, in which case the function does nothing).  `entry(..).or_insert_with`
keeps an existing `SessionInfo`; the connection insert overwrites any
previous record for the same user. -/
def join_session (db : Nat → Option Nat) (sessions : List (Nat × SessionInfo))
    (sid uid : Nat) (username : String) (isDm : Bool) : List (Nat × SessionInfo) :=
  match db sid with
  | none => sessions
  | some cid =>
    let si := (alookup sessions sid).getD ⟨sid, cid, []⟩
    let si2 := { si with connections := ainsert si.connections uid ⟨uid, username, isDm⟩ }
    ainsert sessions sid si2

/-- `leave_session` (socket.rs lines 688-703): drop the user's connection
and garbage-collect the session entry when it becomes empty. -/
def leave_session (sessions : List (Nat × SessionInfo)) (sid uid : Nat) :
    List (Nat × SessionInfo) :=
  match alookup sessions sid with
  | none => sessions
  | some si =>
    let conns := (si.connections.filter fun p => ¬ p.1 = uid)
    if conns.isEmpty then sessions.filter fun p => ¬ p.1 = sid
    else ainsert sessions sid { si with connections := conns }

/-- `get_session_players` (socket.rs lines 705-723): snapshot of the
session's connections as `PlayerInfo` records. -/
def get_session_players (sessions : List (Nat × SessionInfo)) (sid : Nat) :
    List PlayerInfo :=
  match alookup sessions sid with
  | some si => si.connections.map fun p => ⟨p.2.user_id, p.2.username, p.2.is_dm⟩
  | none => []

/-- `broadcast_to_session` (socket.rs lines 730-744), modelled by the list
of `(user id, message)` deliveries it performs.  The source only prints the
message (`println!`) in both branches of the session lookup and writes to no
connection's outbound channel, so no delivery happens at all. -/
def broadcast_to_session {α : Type} (sessions : List (Nat × SessionInfo))
    (sid : Nat) (msg : α) : List (Nat × α) :=
  match alookup sessions sid with
  | some _ => []
  | none => []

/-- Number of connections registered for session `sid`. -/
def connCount (sessions : List (Nat × SessionInfo)) (sid : Nat) : Nat :=
  ((alookup sessions sid).map fun si => si.connections.length).getD 0

/-! ## HP updates (socket.rs: `ClientMessage::UpdateHP`, lines 496-540) -/

/-- models.rs `Character` (json blobs, timestamps not modelled). -/
structure Character where
  id : Nat
  campaign_id : Nat
  player_id : Option Nat
  name : String
  race : Option String
  charClass : Option String
  level : Int
  hp_current : Option Int
  hp_max : Option Int
  ac : Option Int
  speed : Option Int
deriving DecidableEq, Repr

/-- Outbound `ServerMessage::HPUpdated` payload. -/
structure HPUpdatedMsg where
  character_id : Nat
  hp_current : Int
  hp_max : Int
deriving DecidableEq, Repr

/-- The SQL `UPDATE characters SET hp_current = $1,
hp_max = COALESCE($2, hp_max)` of the UpdateHP arm. -/
def applyHPUpdate (c : Character) (hpCur : Int) (hpMax : Option Int) : Character :=
  { c with
    hp_current := some hpCur
    hp_max := match hpMax with | some v => some v | none => c.hp_max }

/-- The `ClientMessage::UpdateHP` arm (socket.rs lines 496-540):
`hasAccess` is the owner-or-DM SQL predicate, `c` the stored character row.
Returns the updated row and the `HPUpdated` payload (the same payload is
broadcast and echoed); absent HP fields are reported as 0 via
`unwrap_or(0)`. -/
def updateHPHandler (hasAccess : Bool) (c : Character) (hpCur : Int)
    (hpMax : Option Int) : Except String (Character × HPUpdatedMsg) :=
  if hasAccess = false then .error "Access denied to this character"
  else
    let res := applyHPUpdate c hpCur hpMax
    .ok (res, ⟨c.id, res.hp_current.getD 0, res.hp_max.getD 0⟩)

/-! ## Lemmas about decimal printing and parsing -/

theorem digitCharSpec : ∀ n, n < 10 →
    (Char.ofNat (48 + n)).isDigit = true ∧ charVal (Char.ofNat (48 + n)) = n ∧
      48 ≤ (Char.ofNat (48 + n)).toNat ∧ (Char.ofNat (48 + n)).toNat ≤ 57 := by
  decide

theorem parseNatAux_append (xs ys : List Char) (acc : Nat) :
    parseNatAux acc (xs ++ ys) = (parseNatAux acc xs).bind fun a => parseNatAux a ys := by
  induction xs generalizing acc with
  | nil => simp [parseNatAux]
  | cons c cs ih =>
    simp only [List.cons_append, parseNatAux]
    by_cases h : c.isDigit
    · simp [h, ih]
    · simp [h]

theorem natToRevDigitsAux_digits (fuel n : Nat) :
    ∀ c ∈ natToRevDigitsAux fuel n, 48 ≤ c.toNat ∧ c.toNat ≤ 57 := by
  induction fuel generalizing n with
  | zero => simp [natToRevDigitsAux]
  | succ fuel ih =>
    intro c hc
    simp only [natToRevDigitsAux] at hc
    by_cases h : n < 10
    · simp only [if_pos h, List.mem_singleton] at hc
      subst hc
      exact (digitCharSpec n h).2.2
    · simp only [if_neg h, List.mem_cons] at hc
      rcases hc with hc | hc
      · subst hc
        exact (digitCharSpec (n % 10) (Nat.mod_lt _ (by omega))).2.2
      · exact ih _ c hc

theorem natToRevDigitsAux_ne_nil (fuel n : Nat) (h : 0 < fuel) :
    natToRevDigitsAux fuel n ≠ [] := by
  cases fuel with
  | zero => omega
  | succ fuel =>
    simp only [natToRevDigitsAux]
    by_cases h10 : n < 10 <;> simp [h10]

theorem parseNatAux_revDigits (fuel : Nat) :
    ∀ n acc, n < fuel →
      parseNatAux acc ((natToRevDigitsAux fuel n).reverse)
        = some (acc * 10 ^ (natToRevDigitsAux fuel n).length + n) := by
  induction fuel with
  | zero => omega
  | succ fuel ih =>
    intro n acc h
    simp only [natToRevDigitsAux]
    by_cases h10 : n < 10
    · have hd := digitCharSpec n h10
      simp [if_pos h10, parseNatAux, hd.1, hd.2.1]
    · simp only [if_neg h10, List.reverse_cons, List.length_cons]
      rw [parseNatAux_append]
      have hdiv : n / 10 < fuel := by omega
      rw [ih (n / 10) acc hdiv]
      have hd := digitCharSpec (n % 10) (Nat.mod_lt _ (by omega))
      simp only [Option.some_bind, parseNatAux, hd.1, hd.2.1, if_true]
      have h2 : n / 10 * 10 + n % 10 = n := by omega
      have h3 : (acc * 10 ^ (natToRevDigitsAux fuel (n / 10)).length + n / 10) * 10 + n % 10
          = acc * 10 ^ ((natToRevDigitsAux fuel (n / 10)).length + 1) + n := by
        calc (acc * 10 ^ (natToRevDigitsAux fuel (n / 10)).length + n / 10) * 10 + n % 10
            = acc * (10 ^ (natToRevDigitsAux fuel (n / 10)).length * 10)
                + (n / 10 * 10 + n % 10) := by ring
          _ = acc * (10 ^ (natToRevDigitsAux fuel (n / 10)).length * 10) + n := by rw [h2]
          _ = acc * 10 ^ ((natToRevDigitsAux fuel (n / 10)).length + 1) + n := by
                rw [pow_succ]
      rw [h3]

theorem parseNatDigits_natDigitsL (n : Nat) : parseNatDigits (natDigitsL n) = some n := by
  have hne : natToRevDigitsAux (n + 1) n ≠ [] := natToRevDigitsAux_ne_nil _ _ (by omega)
  have h := parseNatAux_revDigits (n + 1) n 0 (by omega)
  unfold natDigitsL
  cases hrev : (natToRevDigitsAux (n + 1) n).reverse with
  | nil =>
    exact absurd (by simpa using congrArg List.reverse hrev) hne
  | cons c cs =>
    rw [hrev] at h
    simp only [parseNatDigits, h, Option.some.injEq]
    omega

theorem mem_natDigitsL_bound (n : Nat) :
    ∀ c ∈ natDigitsL n, 48 ≤ c.toNat ∧ c.toNat ≤ 57 := by
  intro c hc
  exact natToRevDigitsAux_digits _ _ c (List.mem_reverse.mp hc)

theorem not_mem_natDigitsL (c : Char) (n : Nat) (hc : c.toNat < 48 ∨ 57 < c.toNat) :
    c ∉ natDigitsL n := by
  intro hm
  have := mem_natDigitsL_bound n c hm
  omega

theorem parseI32L_natDigitsL (n : Nat) (h : n ≤ 2 ^ 31 - 1) :
    parseI32L (natDigitsL n) = some (n : Int) := by
  have hparse := parseNatDigits_natDigitsL n
  cases hl : natDigitsL n with
  | nil => rw [hl] at hparse; simp [parseNatDigits] at hparse
  | cons c cs =>
    rw [hl] at hparse
    have hc := mem_natDigitsL_bound n c (by rw [hl]; simp)
    have hcm : ¬ c = '-' := by
      intro he; rw [he] at hc; exact absurd hc.1 (by decide)
    have hcp : ¬ c = '+' := by
      intro he; rw [he] at hc; exact absurd hc.1 (by decide)
    simp only [parseI32L, if_neg hcm, if_neg hcp, hparse, if_pos h]

theorem parseI32L_intDigitsL (m : Int) (h1 : -(2 ^ 31) ≤ m) (h2 : m ≤ 2 ^ 31 - 1) :
    parseI32L (intDigitsL m) = some m := by
  unfold intDigitsL
  have hpow : (2 : Int) ^ 31 = 2147483648 := by norm_num
  have hpown : (2 : Nat) ^ 31 = 2147483648 := by norm_num
  rw [hpow] at h1
  by_cases hm : m < 0
  · simp only [if_pos hm, parseI32L, if_pos rfl, parseNatDigits_natDigitsL]
    have hle : m.natAbs ≤ 2 ^ 31 := by omega
    rw [if_pos hle]
    have habs : -((m.natAbs : Nat) : Int) = m := by omega
    rw [habs]
    simp
  · simp only [if_neg hm]
    rw [parseI32L_natDigitsL m.natAbs (by omega)]
    simp only [Option.some.injEq]
    omega

/-! ## Lemmas about splitting -/

theorem splitOnChar_ne_nil (sep : Char) (l : List Char) : splitOnChar sep l ≠ [] := by
  induction l with
  | nil => simp [splitOnChar]
  | cons c cs ih =>
    simp only [splitOnChar]
    by_cases h : c = sep
    · simp [h]
    · simp only [if_neg h]
      cases hs : splitOnChar sep cs with
      | nil => simp
      | cons p ps => simp

theorem splitOnChar_append (sep : Char) (xs ys : List Char) (hx : sep ∉ xs) :
    splitOnChar sep (xs ++ ys)
      = (xs ++ (splitOnChar sep ys).headI) :: (splitOnChar sep ys).tail := by
  induction xs with
  | nil =>
    simp only [List.nil_append]
    cases hs : splitOnChar sep ys with
    | nil => exact absurd hs (splitOnChar_ne_nil sep ys)
    | cons p ps => simp
  | cons c cs ih =>
    have hc : ¬ c = sep := by
      intro he; exact hx (by simp [he])
    have hx2 : sep ∉ cs := fun hm => hx (List.mem_cons_of_mem _ hm)
    simp only [List.cons_append, splitOnChar, List.append_eq, if_neg hc, ih hx2]

theorem splitOnChar_not_mem (sep : Char) (xs : List Char) (hx : sep ∉ xs) :
    splitOnChar sep xs = [xs] := by
  have h := splitOnChar_append sep xs [] hx
  simpa [splitOnChar] using h

theorem splitOnChar_cons_self (sep : Char) (ys : List Char) :
    splitOnChar sep (sep :: ys) = [] :: splitOnChar sep ys := by
  simp [splitOnChar]

theorem mkDiceExpr_data (count sides : Nat) (modifier : Int) :
    (mkDiceExpr count sides modifier).data
      = (natDigitsL count ++ 'd' :: natDigitsL sides) ++ '+' :: intDigitsL modifier := by
  simp [mkDiceExpr]

theorem intDigitsL_bound (m : Int) :
    ∀ c ∈ intDigitsL m, c = '-' ∨ (48 ≤ c.toNat ∧ c.toNat ≤ 57) := by
  intro c hc
  unfold intDigitsL at hc
  by_cases hm : m < 0
  · rw [if_pos hm] at hc
    rcases List.mem_cons.mp hc with h | h
    · exact Or.inl h
    · exact Or.inr (mem_natDigitsL_bound _ c h)
  · rw [if_neg hm] at hc
    exact Or.inr (mem_natDigitsL_bound _ c hc)

theorem plus_not_mem_intDigitsL (m : Int) : '+' ∉ intDigitsL m := by
  intro hm
  rcases intDigitsL_bound m '+' hm with h | h
  · exact absurd h (by decide)
  · exact absurd h (by decide)

theorem splitPlus_mkDiceExpr (count sides : Nat) (modifier : Int) :
    splitOnChar '+' (mkDiceExpr count sides modifier).data
      = [natDigitsL count ++ 'd' :: natDigitsL sides, intDigitsL modifier] := by
  have hA : '+' ∉ natDigitsL count ++ 'd' :: natDigitsL sides := by
    intro hm
    rcases List.mem_append.mp hm with h | h
    · exact not_mem_natDigitsL '+' count (by decide) h
    · rcases List.mem_cons.mp h with h | h
      · exact absurd h (by decide)
      · exact not_mem_natDigitsL '+' sides (by decide) h
  rw [mkDiceExpr_data, splitOnChar_append _ _ _ hA, splitOnChar_cons_self,
    splitOnChar_not_mem _ _ (plus_not_mem_intDigitsL modifier)]
  simp

theorem splitD_mkDiceExpr (count sides : Nat) :
    splitOnChar 'd' (natDigitsL count ++ 'd' :: natDigitsL sides)
      = [natDigitsL count, natDigitsL sides] := by
  have hc : 'd' ∉ natDigitsL count := not_mem_natDigitsL 'd' count (by decide)
  have hs : 'd' ∉ natDigitsL sides := not_mem_natDigitsL 'd' sides (by decide)
  rw [splitOnChar_append _ _ _ hc, splitOnChar_cons_self, splitOnChar_not_mem _ _ hs]
  simp

theorem rollValue_bounds (sides r : Nat) (hs : 1 ≤ sides) :
    1 ≤ rollValue sides r ∧ rollValue sides r ≤ (sides : Int) := by
  have h : (r % 2 ^ 32) % sides < sides := Nat.mod_lt _ (by omega)
  unfold rollValue
  generalize hx : (r % 2 ^ 32) % sides = x at h
  constructor
  · exact_mod_cast (show 1 ≤ x + 1 by omega)
  · exact_mod_cast (show x + 1 ≤ sides by omega)

theorem wrap32_eq_self (x : Int) (h1 : -(2 ^ 31) ≤ x) (h2 : x ≤ 2 ^ 31 - 1) :
    wrap32 x = x := by
  have ha : (2 : Int) ^ 31 = 2147483648 := by norm_num
  have hb : (2 : Int) ^ 32 = 4294967296 := by norm_num
  unfold wrap32
  rw [ha, hb]
  rw [ha] at h1 h2
  omega

theorem foldl_wrap32_eq_sum (l : List Int) :
    ∀ acc : Int, (∀ x ∈ l, 0 ≤ x) → 0 ≤ acc → acc + l.sum ≤ 2 ^ 31 - 1 →
      l.foldl (fun a r => wrap32 (a + r)) acc = acc + l.sum := by
  induction l with
  | nil =>
    intro acc _ _ _
    simp
  | cons r rs ih =>
    intro acc hx hacc hbound
    have hr : 0 ≤ r := hx r (List.mem_cons_self r rs)
    have hrs : ∀ x ∈ rs, 0 ≤ x := fun x hxm => hx x (List.mem_cons_of_mem r hxm)
    have hsum : 0 ≤ rs.sum := List.sum_nonneg hrs
    have hpos : (0 : Int) ≤ 2 ^ 31 := by positivity
    have hbound2 : acc + r + rs.sum ≤ 2 ^ 31 - 1 := by
      rw [List.sum_cons] at hbound
      linarith
    have hw : wrap32 (acc + r) = acc + r :=
      wrap32_eq_self _ (by linarith) (by linarith)
    simp only [List.foldl_cons, hw]
    rw [ih (acc + r) hrs (by linarith) hbound2, List.sum_cons]
    ring

theorem roll_dice_mkDiceExpr_eq (count sides : Nat) (modifier : Int) (rng : Nat → Nat)
    (hc1 : 1 ≤ count) (hc2 : count ≤ 2 ^ 31 - 1)
    (hs1 : 1 ≤ sides) (hs2 : sides ≤ 2 ^ 31 - 1)
    (hm1 : -(2 ^ 31) ≤ modifier) (hm2 : modifier ≤ 2 ^ 31 - 1) :
    roll_dice (mkDiceExpr count sides modifier) rng
      = .ok { total := wrap32
                ((((List.range count).map fun i => rollValue sides (rng i)).foldl
                    (fun acc r => wrap32 (acc + r)) 0) + modifier)
              rolls := (List.range count).map fun i => rollValue sides (rng i) } := by
  have hpc := parseI32L_natDigitsL count hc2
  have hps := parseI32L_natDigitsL sides hs2
  have hpm := parseI32L_intDigitsL modifier hm1 hm2
  have hpos : ¬ ((count : Int) ≤ 0 ∨ (sides : Int) ≤ 0) := by
    push_neg
    constructor
    · exact_mod_cast (show 0 < count by omega)
    · exact_mod_cast (show 0 < sides by omega)
  simp only [roll_dice, splitPlus_mkDiceExpr, List.headI, splitD_mkDiceExpr,
    hpc, hps, hpm, Option.getD_some, if_neg hpos, Int.toNat_natCast]

/-- Claim C1 (amended): for every count and sides in `[1, 2^31 - 1]` and
modifier in `[-2^31, 2^31 - 1]` (the i32-representable values the parser
accepts) such that, in addition, the i32 `total` accumulation cannot
overflow for any draw — `count * sides ≤ 2^31 - 1` and
`count * sides + modifier ≤ 2^31 - 1` (the low side cannot overflow since
every roll is positive) —
`roll_dice "{count}d{sides}+{modifier}"` succeeds for every random stream,
returns exactly `count` roll values each in `[1, sides]`, and reports
`total = sum of rolls + modifier`. -/
theorem C1_roll_dice_formula (count sides : Nat) (modifier : Int) (rng : Nat → Nat)
    (hc1 : 1 ≤ count) (hc2 : count ≤ 2 ^ 31 - 1)
    (hs1 : 1 ≤ sides) (hs2 : sides ≤ 2 ^ 31 - 1)
    (hm1 : -(2 ^ 31) ≤ modifier) (hm2 : modifier ≤ 2 ^ 31 - 1)
    (hns : count * sides ≤ 2 ^ 31 - 1)
    (hhi : (count : Int) * (sides : Int) + modifier ≤ 2 ^ 31 - 1) :
    ∃ r : DiceRoll,
      roll_dice (mkDiceExpr count sides modifier) rng = .ok r
        ∧ r.rolls.length = count
        ∧ (∀ x ∈ r.rolls, 1 ≤ x ∧ x ≤ (sides : Int))
        ∧ r.total = r.rolls.sum + modifier := by
  have hbounds : ∀ x ∈ (List.range count).map fun i => rollValue sides (rng i),
      1 ≤ x ∧ x ≤ (sides : Int) := by
    intro x hx
    rcases List.mem_map.mp hx with ⟨i, _, rfl⟩
    exact rollValue_bounds sides (rng i) hs1
  refine ⟨_, roll_dice_mkDiceExpr_eq count sides modifier rng hc1 hc2 hs1 hs2 hm1 hm2,
    by simp, hbounds, ?_⟩
  show wrap32 ((((List.range count).map fun i => rollValue sides (rng i)).foldl
        (fun acc r => wrap32 (acc + r)) 0) + modifier)
      = (((List.range count).map fun i => rollValue sides (rng i)).sum) + modifier
  set L := (List.range count).map fun i => rollValue sides (rng i) with hL
  have hlen : L.length = count := by simp [hL]
  have hnonneg : ∀ x ∈ L, 0 ≤ x := fun x hx => le_trans (by norm_num) (hbounds x hx).1
  have hsum_le : L.sum ≤ (count : Int) * (sides : Int) := by
    have h := List.sum_le_card_nsmul L (sides : Int) (fun x hx => (hbounds x hx).2)
    rwa [hlen, nsmul_eq_mul] at h
  have hsum_ge : (count : Int) ≤ L.sum := by
    have h := List.card_nsmul_le_sum L (1 : Int) (fun x hx => (hbounds x hx).1)
    rwa [hlen, nsmul_eq_mul, mul_one] at h
  have hcs : (count : Int) * (sides : Int) ≤ 2 ^ 31 - 1 := by
    have h1 : ((count * sides : Nat) : Int) = (count : Int) * (sides : Int) := by
      push_cast
      ring
    have h2 : ((count * sides : Nat) : Int) ≤ ((2 ^ 31 - 1 : Nat) : Int) :=
      Int.ofNat_le.mpr hns
    have h3 : ((2 ^ 31 - 1 : Nat) : Int) = 2 ^ 31 - 1 := by norm_num
    rw [h1, h3] at h2
    exact h2
  have hpos : (0 : Int) ≤ 2 ^ 31 := by positivity
  have hfold : L.foldl (fun a r => wrap32 (a + r)) 0 = L.sum := by
    have h := foldl_wrap32_eq_sum L 0 hnonneg le_rfl (by linarith)
    simpa using h
  rw [hfold, wrap32_eq_self _ (by linarith) (by linarith)]

/-- Counterexample to claim C1 as stated: `count = 2^31` is `≥ 1`, but the
expression `"2147483648d6+0"` does not roll — the count does not fit in an
i32, so `str::parse::<i32>` fails and `roll_dice` errors out.  Moreover,
even for i32-representable operands the i32 `total` can overflow:
`"1d1+2147483647"` rolls a single 1 and the i32 accumulation
`1 + 2147483647` wraps to `-2147483648` (release builds; debug builds
panic), so the reported total is not `sum + modifier` there either. -/
theorem C1_counterexample :
    mkDiceExpr (2 ^ 31) 6 0 = "2147483648d6+0"
      ∧ roll_dice (mkDiceExpr (2 ^ 31) 6 0) (fun _ => 0) = .error "Invalid dice count"
      ∧ mkDiceExpr 1 1 2147483647 = "1d1+2147483647"
      ∧ roll_dice (mkDiceExpr 1 1 2147483647) (fun _ => 0)
          = .ok ⟨-2147483648, [1]⟩
      ∧ ¬ (-2147483648 : Int) = 1 + 2147483647 :=
  ⟨rfl, rfl, rfl, rfl, by norm_num⟩

/-- Witness for C1 at `count = 2`, `sides = 6`, `modifier = 3`. -/
theorem C1_witness :
    ∃ r : DiceRoll,
      roll_dice (mkDiceExpr 2 6 3) (fun i => i) = .ok r
        ∧ r.rolls.length = 2
        ∧ (∀ x ∈ r.rolls, 1 ≤ x ∧ x ≤ (6 : Int))
        ∧ r.total = r.rolls.sum + 3 :=
  C1_roll_dice_formula 2 6 3 (fun i => i) (by norm_num) (by norm_num) (by norm_num)
    (by norm_num) (by norm_num) (by norm_num) (by norm_num) (by norm_num)

/-- Claim C6 (amended): an input whose `d`-split has wrong arity, or whose
count or sides field is non-numeric, or whose count or sides is
non-positive, makes `roll_dice` return a descriptive error (and hence no
roll); in particular `"0d6"`, `"d20"` and `"2x6"` all fail.  (A non-numeric
or out-of-range modifier field is not an error: `unwrap_or(0)` silently
treats it as 0 — see `C6_counterexample`.) -/
theorem C6_roll_dice_validation :
    (∀ (s : String) (rng : Nat → Nat),
      ((splitOnChar 'd' (splitOnChar '+' s.data).headI).length ≠ 2
          ∨ (∃ a b, splitOnChar 'd' (splitOnChar '+' s.data).headI = [a, b]
              ∧ (parseI32L a = none ∨ parseI32L b = none
                  ∨ (∃ ca cb, parseI32L a = some ca ∧ parseI32L b = some cb
                      ∧ (ca ≤ 0 ∨ cb ≤ 0)))))
        → ∃ msg, roll_dice s rng = .error msg)
      ∧ (∀ rng : Nat → Nat, roll_dice "0d6" rng = .error "Dice count and sides must be positive")
      ∧ (∀ rng : Nat → Nat, roll_dice "d20" rng = .error "Invalid dice count")
      ∧ (∀ rng : Nat → Nat,
          roll_dice "2x6" rng = .error "Invalid dice format. Use format like '2d6+3'") := by
  refine ⟨?_, fun _ => rfl, fun _ => rfl, fun _ => rfl⟩
  intro s rng hbad
  rcases hbad with hlen | ⟨a, b, hab, hcase⟩
  · simp only [roll_dice]
    cases hdp : splitOnChar 'd' (splitOnChar '+' s.data).headI with
    | nil => exact ⟨_, rfl⟩
    | cons a rest =>
      cases rest with
      | nil => exact ⟨_, rfl⟩
      | cons b rest2 =>
        cases rest2 with
        | nil => rw [hdp] at hlen; simp at hlen
        | cons c rest3 => exact ⟨_, rfl⟩
  · simp only [roll_dice, hab]
    rcases hcase with ha | hb | ⟨ca, cb, ha, hb, hle⟩
    · exact ⟨"Invalid dice count", by simp [ha]⟩
    · cases hpa : parseI32L a with
      | none => exact ⟨"Invalid dice count", by simp [hpa]⟩
      | some ca => exact ⟨"Invalid dice sides", by simp [hpa, hb]⟩
    · refine ⟨"Dice count and sides must be positive", ?_⟩
      simp only [ha, hb]
      rw [if_pos hle]

/-- Counterexample to claim C6 as stated: the modifier field `"x"` of
`"1d6+x"` is non-numeric, yet `roll_dice` does not fail — `unwrap_or(0)`
silently substitutes modifier 0 and the roll is produced. -/
theorem C6_counterexample :
    parseI32L ['x'] = none
      ∧ splitOnChar '+' ("1d6+x" : String).data = [['1', 'd', '6'], ['x']]
      ∧ roll_dice "1d6+x" (fun _ => 0) = .ok ⟨1, [1]⟩ :=
  ⟨rfl, rfl, rfl⟩

/-- Witness for C6: the wrong-arity input `"2x6"`. -/
theorem C6_witness : ∃ msg, roll_dice "2x6" (fun _ => 0) = .error msg :=
  C6_roll_dice_validation.1 "2x6" (fun _ => 0) (Or.inl (by decide))

/-! ## Lemmas about the turn engine -/

theorem position_eq_none {α : Type} (p : α → Bool) (l : List α)
    (h : ∀ a ∈ l, p a = false) : position p l = none := by
  induction l with
  | nil => rfl
  | cons a as ih =>
    simp only [position, h a (List.mem_cons_self a as), Bool.false_eq_true, if_false]
    rw [ih fun x hx => h x (List.mem_cons_of_mem a hx)]
    rfl

theorem position_eq_some {α : Type} (p : α → Bool) (l : List α) :
    ∀ (i : Nat) (hi : i < l.length), p (l.get ⟨i, hi⟩) = true →
      (∀ j, j < i → ∀ (hj : j < l.length), p (l.get ⟨j, hj⟩) = false) →
      position p l = some i := by
  induction l with
  | nil => intro i hi; simp at hi
  | cons a as ih =>
    intro i hi hp hbefore
    cases i with
    | zero =>
      simp only [List.get] at hp
      simp [position, hp]
    | succ i =>
      have ha : p a = false := hbefore 0 (by omega) (by simp)
      simp only [position, ha, Bool.false_eq_true, if_false]
      have hi2 : i < as.length := by simpa using hi
      rw [ih i hi2 (by simpa using hp)
        (fun j hj hjl => by simpa using hbefore (j + 1) (by omega) (by simpa using hjl))]
      rfl

theorem advanceTurn_of_position_some (gs : GameState) (i : Nat)
    (hi : i < gs.initiative_order.length)
    (hpos : position (fun e => some e.id == gs.current_turn) gs.initiative_order = some i) :
    advanceTurn gs
      = { gs with
          current_turn := some (gs.initiative_order.get
            ⟨(i + 1) % gs.initiative_order.length, Nat.mod_lt _ (by omega)⟩).id
          round := if (i + 1) % gs.initiative_order.length = 0 then gs.round + 1
            else gs.round } := by
  unfold advanceTurn
  have hne : ¬ gs.initiative_order.length = 0 := by omega
  rw [dif_neg hne]
  simp only [hpos, Option.getD_some]

theorem advanceTurn_of_position_none (gs : GameState)
    (hne : ¬ gs.initiative_order.length = 0)
    (hpos : position (fun e => some e.id == gs.current_turn) gs.initiative_order = none) :
    advanceTurn gs
      = { gs with
          current_turn := some (gs.initiative_order.get
            ⟨1 % gs.initiative_order.length, Nat.mod_lt _ (Nat.pos_of_ne_zero hne)⟩).id
          round := if 1 % gs.initiative_order.length = 0 then gs.round + 1
            else gs.round } := by
  unfold advanceTurn
  rw [dif_neg hne]
  simp only [hpos, Option.getD_none, Nat.zero_add]

theorem advanceTurn_empty (gs : GameState) (h : gs.initiative_order = []) :
    advanceTurn gs = gs := by
  unfold advanceTurn
  rw [dif_pos (by simp [h])]

/-- A minimal initiative entry with identifier `n`, used by the concrete
examples. -/
def mkEntry (n : Nat) : InitiativeEntry :=
  { id := n, name := "", initiative := 0, is_player := false, character_id := none
    user_id := none, hp_current := none, hp_max := none, ac := none }

instance : Inhabited InitiativeEntry := ⟨mkEntry 0⟩

/-- The concrete scenario of claim C2: order `[A, B, C]` with ids 0, 1, 2,
`current_turn = A`, `round = 1`. -/
def threeState : GameState :=
  { initiative_order := [mkEntry 0, mkEntry 1, mkEntry 2], current_turn := some 0
    round := 1, combat_active := true, conditions := [] }

/-- A two-entry order with ids 5 and 7 and no current turn. -/
def twoState : GameState :=
  { initiative_order := [mkEntry 5, mkEntry 7], current_turn := none
    round := 1, combat_active := false, conditions := [] }

/-- A singleton order with id 3 and no current turn. -/
def oneState : GameState :=
  { initiative_order := [mkEntry 3], current_turn := none
    round := 1, combat_active := false, conditions := [] }

/-- An empty order with a stale `current_turn` left in the blob. -/
def staleState : GameState :=
  { initiative_order := [], current_turn := some 9, round := 4
    combat_active := false, conditions := [] }

/-- Claim C2 (confirmed): on a non-empty order with pairwise-distinct entry
ids (the data-model invariant) and `current_turn` equal to the id of the
entry at index `i`, advancing moves `current_turn` to the id of the entry
at index `(i + 1) % length` and increments `round` by 1 exactly when that
next index is 0; in particular the `[A, B, C]` scenario steps
`B (round 1)`, `C (round 1)`, `A (round 2)`. -/
theorem C2_next_turn :
    (∀ (gs : GameState) (i : Nat) (hi : i < gs.initiative_order.length),
      (gs.initiative_order.map InitiativeEntry.id).Nodup →
      gs.current_turn = some (gs.initiative_order.get ⟨i, hi⟩).id →
      (advanceTurn gs).current_turn
          = some (gs.initiative_order.get
              ⟨(i + 1) % gs.initiative_order.length, Nat.mod_lt _ (by omega)⟩).id
        ∧ (advanceTurn gs).round
            = (if (i + 1) % gs.initiative_order.length = 0 then gs.round + 1 else gs.round))
      ∧ (advanceTurn threeState).current_turn = some 1
      ∧ (advanceTurn threeState).round = 1
      ∧ (advanceTurn (advanceTurn threeState)).current_turn = some 2
      ∧ (advanceTurn (advanceTurn threeState)).round = 1
      ∧ (advanceTurn (advanceTurn (advanceTurn threeState))).current_turn = some 0
      ∧ (advanceTurn (advanceTurn (advanceTurn threeState))).round = 2 := by
  refine ⟨?_, by decide⟩
  intro gs i hi hnd hcur
  have hp : (fun e => some e.id == gs.current_turn) (gs.initiative_order.get ⟨i, hi⟩)
      = true := by
    simp [hcur]
  have hb : ∀ j, j < i → ∀ (hj : j < gs.initiative_order.length),
      (fun e => some e.id == gs.current_turn) (gs.initiative_order.get ⟨j, hj⟩) = false := by
    intro j hji hj
    have hne2 : ¬ (gs.initiative_order.get ⟨j, hj⟩).id
        = (gs.initiative_order.get ⟨i, hi⟩).id := by
      intro he
      have hj2 : j < (gs.initiative_order.map InitiativeEntry.id).length := by simpa using hj
      have hi2 : i < (gs.initiative_order.map InitiativeEntry.id).length := by simpa using hi
      have hmap : (gs.initiative_order.map InitiativeEntry.id).get ⟨j, hj2⟩
          = (gs.initiative_order.map InitiativeEntry.id).get ⟨i, hi2⟩ := by
        simpa [List.get_eq_getElem, List.getElem_map] using he
      have := (List.Nodup.get_inj_iff hnd).mp hmap
      simp only [Fin.mk.injEq] at this
      omega
    simp only [hcur]
    simpa using hne2
  have hpos := position_eq_some (fun e => some e.id == gs.current_turn)
    gs.initiative_order i hi hp hb
  rw [advanceTurn_of_position_some gs i hi hpos]
  exact ⟨rfl, rfl⟩

/-- Witness for C2: one step of the `[A, B, C]` scenario through the
general statement. -/
theorem C2_witness :
    (advanceTurn threeState).current_turn
        = some (threeState.initiative_order.get
            ⟨(0 + 1) % threeState.initiative_order.length,
             Nat.mod_lt _ (by decide)⟩).id
      ∧ (advanceTurn threeState).round
          = (if (0 + 1) % threeState.initiative_order.length = 0 then threeState.round + 1
             else threeState.round) :=
  C2_next_turn.1 threeState 0 (by decide) (by decide) (by decide)

/-- Claim C4 (amended): with a non-empty order and `current_turn` unset or
matching no entry, the code treats the current index as 0 and then still
advances: `current_turn` becomes the id of the entry at index
`1 % length` — the second entry when the order has two or more entries,
not the first — and `round` is unchanged unless the order is a singleton,
in which case the next index wraps to 0 and `round` increments by 1. -/
theorem C4_unmatched_turn (gs : GameState)
    (hne : ¬ gs.initiative_order.length = 0)
    (hnm : ∀ e ∈ gs.initiative_order, ¬ some e.id = gs.current_turn) :
    (advanceTurn gs).current_turn
        = some (gs.initiative_order.get
            ⟨1 % gs.initiative_order.length, Nat.mod_lt _ (Nat.pos_of_ne_zero hne)⟩).id
      ∧ (advanceTurn gs).round
          = (if gs.initiative_order.length = 1 then gs.round + 1 else gs.round) := by
  have hpos : position (fun e => some e.id == gs.current_turn) gs.initiative_order = none :=
    position_eq_none _ _ (fun a ha => by simp [hnm a ha])
  rw [advanceTurn_of_position_none gs hne hpos]
  refine ⟨rfl, ?_⟩
  show (if 1 % gs.initiative_order.length = 0 then gs.round + 1 else gs.round)
      = (if gs.initiative_order.length = 1 then gs.round + 1 else gs.round)
  have hcond : (1 % gs.initiative_order.length = 0) ↔ (gs.initiative_order.length = 1) := by
    constructor
    · intro h
      rcases Nat.lt_or_ge gs.initiative_order.length 2 with hl | hl
      · omega
      · rw [Nat.mod_eq_of_lt (by omega)] at h
        omega
    · intro h
      rw [h]
  simp only [hcond]

/-- Counterexample to claim C4 as stated: with order `[id 5, id 7]` and
`current_turn` unset, the advance sets `current_turn` to the SECOND
entry's id 7, not the first entry's id 5; and on a singleton order the
round is incremented, not left unchanged. -/
theorem C4_counterexample :
    (advanceTurn twoState).current_turn = some 7
      ∧ ¬ (advanceTurn twoState).current_turn = some twoState.initiative_order.headI.id
      ∧ twoState.round = 1
      ∧ (advanceTurn twoState).round = 1
      ∧ (advanceTurn oneState).round = oneState.round + 1 := by
  decide

/-- Witness for C4 on the two-entry state. -/
theorem C4_witness :
    (advanceTurn twoState).current_turn
        = some (twoState.initiative_order.get
            ⟨1 % twoState.initiative_order.length,
             Nat.mod_lt _ (Nat.pos_of_ne_zero (by decide))⟩).id
      ∧ (advanceTurn twoState).round
          = (if twoState.initiative_order.length = 1 then twoState.round + 1
             else twoState.round) :=
  C4_unmatched_turn twoState (by decide) (by decide)

/-- Claim C5 (amended): on an empty initiative order the NextTurn handler
fails with "No initiative order set" only when `current_turn` is also
unset; `round` and `current_turn` are then unchanged, but the blob is
still written back (same content, refreshed timestamp).  When a stale
`current_turn` is set despite the empty order, the handler instead
succeeds and reports the stale turn and unchanged round. -/
theorem C5_empty_order (gs : GameState) (sid : Nat) (he : gs.initiative_order = []) :
    (gs.current_turn = none →
        nextTurnHandler true (some gs) sid = (some gs, [], .error "No initiative order set"))
      ∧ (∀ t, gs.current_turn = some t →
          nextTurnHandler true (some gs) sid
            = (some gs, [⟨sid, t, gs.round⟩], .ok ⟨sid, t, gs.round⟩)) := by
  have hadv : advanceTurn gs = gs := advanceTurn_empty gs he
  constructor
  · intro hn
    simp [nextTurnHandler, hadv, hn]
  · intro t ht
    simp [nextTurnHandler, hadv, ht]

/-- Counterexample to claim C5 as stated: an empty order with a stale
`current_turn = 9` does not fail — the handler broadcasts and returns
`TurnChanged` with the stale turn (and still rewrites the blob). -/
theorem C5_counterexample :
    nextTurnHandler true (some staleState) 1
      = (some staleState, [⟨1, 9, 4⟩], .ok ⟨1, 9, 4⟩) := rfl

/-- Witness for C5 on the default empty state. -/
theorem C5_witness :
    nextTurnHandler true (some defaultGameState) 0
      = (some defaultGameState, [], .error "No initiative order set") :=
  (C5_empty_order defaultGameState 0 rfl).1 rfl

/-! ## Invariant and authorization theorems -/

theorem advanceTurn_current_mem (gs : GameState)
    (hlen : ¬ gs.initiative_order.length = 0) :
    ∃ (j : Nat) (hj : j < gs.initiative_order.length),
      advanceTurn gs
        = { gs with
            current_turn := some (gs.initiative_order.get ⟨j, hj⟩).id
            round := if j = 0 then gs.round + 1 else gs.round } := by
  refine ⟨((position (fun e => some e.id == gs.current_turn) gs.initiative_order).getD 0 + 1)
      % gs.initiative_order.length, Nat.mod_lt _ (Nat.pos_of_ne_zero hlen), ?_⟩
  unfold advanceTurn
  rw [dif_neg hlen]

theorem turnInvariant_none (gs : GameState) (h : gs.current_turn = none) :
    turnInvariant gs = true := by
  unfold turnInvariant
  rw [h]

theorem turnInvariant_some (gs : GameState) (t : Nat) (h : gs.current_turn = some t) :
    turnInvariant gs = (gs.initiative_order.any fun e => e.id == t) := by
  unfold turnInvariant
  rw [h]

/-- Claim C7 (amended): the NextTurn advance preserves the invariant that a
set `current_turn` names some entry of `initiative_order`; the
UpdateInitiative mutation preserves it only when the replacement order
still contains the current turn (or the turn is unset) — in general it
keeps `current_turn` unchanged while replacing the order and can leave it
dangling. -/
theorem C7_turn_invariant :
    (∀ gs : GameState, turnInvariant gs = true → turnInvariant (advanceTurn gs) = true)
      ∧ (∀ (gs : GameState) (order : List InitiativeEntry),
          (gs.current_turn = none ∨ ∃ e ∈ order, gs.current_turn = some e.id) →
          turnInvariant (applyInitiativeUpdate gs order) = true) := by
  constructor
  · intro gs hinv
    by_cases hlen : gs.initiative_order.length = 0
    · rw [advanceTurn_empty gs (List.length_eq_zero.mp hlen)]
      exact hinv
    · obtain ⟨j, hj, heq⟩ := advanceTurn_current_mem gs hlen
      rw [heq, turnInvariant_some _ _ rfl]
      exact List.any_eq_true.mpr
        ⟨gs.initiative_order.get ⟨j, hj⟩, List.get_mem _ _ _, by simp⟩
  · intro gs order h
    rcases h with h | ⟨e, he, h⟩
    · exact turnInvariant_none _ h
    · rw [turnInvariant_some (applyInitiativeUpdate gs order) e.id h]
      exact List.any_eq_true.mpr ⟨e, he, by simp⟩

/-- Counterexample to claim C7 as stated: the state `{order = [id 1],
current_turn = 1}` satisfies the invariant, but a DM UpdateInitiative
replacing the order with `[id 2]` keeps `current_turn = 1`, which names no
entry of the new order: the persisted state breaks the invariant. -/
theorem C7_counterexample :
    turnInvariant ⟨[mkEntry 1], some 1, 1, true, []⟩ = true
      ∧ (updateInitiativeHandler true (some ⟨[mkEntry 1], some 1, 1, true, []⟩) 0 [mkEntry 2]).1
          = some ⟨[mkEntry 2], some 1, 1, true, []⟩
      ∧ turnInvariant ⟨[mkEntry 2], some 1, 1, true, []⟩ = false := by
  decide

/-- Witness for C7: an UpdateInitiative whose new order keeps the current
turn preserves the invariant. -/
theorem C7_witness :
    turnInvariant
        (applyInitiativeUpdate ⟨[mkEntry 1], some 1, 1, true, []⟩ [mkEntry 1, mkEntry 2])
      = true :=
  C7_turn_invariant.2 ⟨[mkEntry 1], some 1, 1, true, []⟩ [mkEntry 1, mkEntry 2]
    (Or.inr ⟨mkEntry 1, by simp, rfl⟩)

/-- Claim C9 (confirmed): a non-DM caller's UpdateInitiative or NextTurn is
rejected: the reply to the sender is the authorization-denial error, no
broadcast call is made (so no other member sees anything), and the stored
blob is left exactly as it was. -/
theorem C9_non_dm_denied :
    (∀ (blob : Option GameState) (sid : Nat) (order : List InitiativeEntry),
        updateInitiativeHandler false blob sid order
          = (blob, [], .error "Only the DM can update initiative"))
      ∧ (∀ (blob : Option GameState) (sid : Nat),
          nextTurnHandler false blob sid
            = (blob, [], .error "Only the DM can advance turns")) :=
  ⟨fun _ _ _ => rfl, fun _ _ => rfl⟩

/-- Witness for C9 on a concrete session blob. -/
theorem C9_witness :
    nextTurnHandler false (some staleState) 1
      = (some staleState, [], .error "Only the DM can advance turns") :=
  C9_non_dm_denied.2 (some staleState) 1

/-! ## Broadcast and registry theorems -/

/-- Claim C3 (code bug): `broadcast_to_session` delivers to nobody at all —
the reference implementation only logs the message.  The first conjunct
shows no call ever delivers; the second shows the failing scenario: user
42 is a joined member of session 1 (visible via `get_session_players`),
yet a broadcast to session 1 reaches no outbound channel. -/
theorem C3_broadcast_delivers_nothing :
    (∀ (α : Type) (sessions : List (Nat × SessionInfo)) (sid : Nat) (msg : α),
        broadcast_to_session sessions sid msg = [])
      ∧ get_session_players [(1, ⟨1, 7, [(42, ⟨42, "alice", false⟩)]⟩)] 1
          = [⟨42, "alice", false⟩]
      ∧ broadcast_to_session [(1, ⟨1, 7, [(42, ⟨42, "alice", false⟩)]⟩)] 1 "hello" = [] := by
  refine ⟨?_, rfl, rfl⟩
  intro α sessions sid msg
  unfold broadcast_to_session
  cases alookup sessions sid <;> rfl

theorem alookup_ainsert_self {β : Type} (l : List (Nat × β)) (k : Nat) (v : β) :
    alookup (ainsert l k v) k = some v := by
  induction l with
  | nil => simp [ainsert, alookup]
  | cons p rest ih =>
    obtain ⟨k2, w⟩ := p
    by_cases h : k2 = k
    · simp [ainsert, h, alookup]
    · simp [ainsert, h, alookup, ih]

theorem ainsert_length_of_isSome {β : Type} (l : List (Nat × β)) (k : Nat) (v : β)
    (h : (alookup l k).isSome) : (ainsert l k v).length = l.length := by
  induction l with
  | nil => simp [alookup] at h
  | cons p rest ih =>
    obtain ⟨k2, w⟩ := p
    by_cases hk : k2 = k
    · simp [ainsert, hk]
    · simp only [alookup, if_neg hk] at h
      simp [ainsert, hk, ih h]

/-- Claim C8 (confirmed): for a session present in the database, joining the
same user twice leaves the session's membership count exactly as after one
join, and the connection record stored for the user afterwards carries the
second call's username and DM flag (last write wins). -/
theorem C8_join_idempotent (db : Nat → Option Nat) (st : List (Nat × SessionInfo))
    (sid uid cid : Nat) (u1 u2 : String) (d1 d2 : Bool) (hdb : db sid = some cid) :
    connCount (join_session db (join_session db st sid uid u1 d1) sid uid u2 d2) sid
        = connCount (join_session db st sid uid u1 d1) sid
      ∧ ((alookup (join_session db (join_session db st sid uid u1 d1) sid uid u2 d2) sid).bind
            fun si => alookup si.connections uid)
          = some ⟨uid, u2, d2⟩ := by
  simp only [join_session, hdb]
  rw [alookup_ainsert_self]
  simp only [Option.getD_some]
  constructor
  · unfold connCount
    rw [alookup_ainsert_self, alookup_ainsert_self]
    simp only [Option.map_some', Option.getD_some]
    exact ainsert_length_of_isSome _ _ _ (by rw [alookup_ainsert_self]; rfl)
  · rw [alookup_ainsert_self]
    simp only [Option.some_bind]
    exact alookup_ainsert_self _ _ _

/-- Witness for C8: double join of user 2 into session 1 on an empty
registry. -/
theorem C8_witness :
    connCount (join_session (fun _ => some 0)
          (join_session (fun _ => some 0) [] 1 2 "a" false) 1 2 "b" true) 1
        = connCount (join_session (fun _ => some 0) [] 1 2 "a" false) 1
      ∧ ((alookup (join_session (fun _ => some 0)
            (join_session (fun _ => some 0) [] 1 2 "a" false) 1 2 "b" true) 1).bind
            fun si => alookup si.connections 2)
          = some ⟨2, "b", true⟩ :=
  C8_join_idempotent (fun _ => some 0) [] 1 2 0 "a" "b" false true rfl

/-! ## HP update theorem -/

/-- Claim C10 (confirmed): when a permitted UpdateHP succeeds, the outbound
`HPUpdated` message reports 0 for any HP field that is NULL on the stored
character after the update (`unwrap_or(0)`), instead of omitting the field
or failing. -/
theorem C10_hp_null_as_zero (c : Character) (cur : Int) (mx : Option Int)
    (res : Character) (out : HPUpdatedMsg)
    (h : updateHPHandler true c cur mx = .ok (res, out)) :
    (res.hp_current = none → out.hp_current = 0)
      ∧ (res.hp_max = none → out.hp_max = 0)
      ∧ out.hp_current = res.hp_current.getD 0
      ∧ out.hp_max = res.hp_max.getD 0
      ∧ out.character_id = c.id := by
  have h2 : (Except.ok (applyHPUpdate c cur mx,
      ({ character_id := c.id
         hp_current := (applyHPUpdate c cur mx).hp_current.getD 0
         hp_max := (applyHPUpdate c cur mx).hp_max.getD 0 } : HPUpdatedMsg))
        : Except String (Character × HPUpdatedMsg))
      = .ok (res, out) := h
  injection h2 with h3
  injection h3 with hres hout
  subst hres
  subst hout
  refine ⟨?_, ?_, rfl, rfl, rfl⟩
  · intro h1
    simp [h1]
  · intro h1
    simp [h1]

/-- A stored character row with NULL HP fields. -/
def sampleChar : Character :=
  { id := 1, campaign_id := 1, player_id := none, name := "npc", race := none
    charClass := none, level := 1, hp_current := none, hp_max := none
    ac := none, speed := none }

/-- Witness for C10: updating `sampleChar` (NULL `hp_max`) reports
`hp_max = 0` in the outbound message. -/
theorem C10_witness :
    updateHPHandler true sampleChar 5 none
        = .ok (applyHPUpdate sampleChar 5 none, ⟨1, 5, 0⟩)
      ∧ (applyHPUpdate sampleChar 5 none).hp_max = none
      ∧ (⟨1, 5, 0⟩ : HPUpdatedMsg).hp_max = 0 :=
  ⟨rfl, rfl,
    (C10_hp_null_as_zero sampleChar 5 none (applyHPUpdate sampleChar 5 none)
      ⟨1, 5, 0⟩ rfl).2.1 rfl⟩
